import Mathlib

/-!
Verification of the bonsai behavior-tree engine.

Shallow embedding of the node execution model: `Status`, the `Blackboard`
typed key-value store, and the composite/decorator tick algorithms
(Sequence, Selector, Parallel, Decorator with its transform library).
Composites are embedded parametrically over an abstract child interface
`ChildI` (tick / reset / halt over a child-local state type), so theorems
quantify over arbitrary child subtrees.  The wall clock used by the
time-based decorator transforms is modelled as an ambient monotone reading
in integer milliseconds passed into every tick (`steady_clock::now()`),
with reading 0 reserved as the "unset" sentinel `time_point{}`.
A tick-counting wrapper `counted` instruments a child interface so that
"child was ticked exactly once / was not ticked" claims are stated as facts
about the counters.
-/

namespace Bonsai

/-- Execution-outcome enumeration, from `status.hpp`. -/
inductive Status where
  | success
  | failure
  | running
  | idle
deriving DecidableEq, Repr

/-- Closed universe of blackboard value kinds: a runtime type tag modelling
the dynamic type stored in `std::any` (representative supported kinds). -/
inductive BBTy where
  | tint
  | tstr
  | tbool
deriving DecidableEq, Repr

/-- Lean type denoted by a blackboard type tag. -/
def BBTy.interp : BBTy → Type
  | .tint => Int
  | .tstr => String
  | .tbool => Bool

/-- A dynamically-typed blackboard value: payload together with its tag,
modelling `std::any`. -/
inductive BBVal where
  | vint (n : Int)
  | vstr (s : String)
  | vbool (b : Bool)
deriving DecidableEq, Repr

/-- Injection of a typed payload into the dynamic value universe
(`std::make_any<T>`). -/
def BBVal.encode : (t : BBTy) → t.interp → BBVal
  | .tint, n => .vint n
  | .tstr, s => .vstr s
  | .tbool, b => .vbool b

/-- Checked projection out of the dynamic universe: succeeds exactly when the
requested tag matches the stored tag (`std::any_cast<T>`, with the catch-all
returning `nullopt` on mismatch). -/
def BBVal.decode : (t : BBTy) → BBVal → Option t.interp
  | .tint, .vint n => some n
  | .tstr, .vstr s => some s
  | .tbool, .vbool b => some b
  | _, _ => none

/-- The blackboard: a mapping from string keys to dynamically-typed values,
from `blackboard.hpp` (`std::unordered_map<std::string, std::any>`; the mutex
serializes accesses and is invisible to the sequential semantics). -/
def Blackboard : Type := String → Option BBVal

/-- `Blackboard::set<T>(key, value)`: stores the value under the key,
overwriting any prior value and type. -/
def Blackboard.set (bb : Blackboard) (k : String) (v : BBVal) : Blackboard :=
  fun q => if q = k then some v else bb q

/-- `Blackboard::get<T>(key)`: looks the key up and `any_cast`s to the
requested type; absent key or tag mismatch both yield `none`. -/
def Blackboard.get (t : BBTy) (bb : Blackboard) (k : String) : Option t.interp :=
  match bb k with
  | some v => BBVal.decode t v
  | none => none

/-- A blackboard with no bindings. -/
def Blackboard.empty : Blackboard := fun _ => none

/-- Clock readings in integer milliseconds (`steady_clock` through
`duration_cast<milliseconds>`); 0 models the sentinel `time_point{}`. -/
abbrev Time := Int

/-- The abstract child interface a composite or decorator node sees through
`NodePtr`: `tick` (receiving the ambient clock reading and the blackboard)
and the `reset` / `halt` notifications, over a child-local state type. -/
structure ChildI (σ : Type) where
  tick : σ → Time → Blackboard → Status × σ × Blackboard
  reset : σ → σ
  halt : σ → σ

/-- Instrumentation: pairs every child state with a counter of how many times
its `tick` has been invoked.  `reset`/`halt` do not alter the counter (it is
bookkeeping, not program state). -/
def counted {σ : Type} (C : ChildI σ) : ChildI (Nat × σ) where
  tick := fun p now bb =>
    let r := C.tick p.2 now bb
    (r.1, (p.1 + 1, r.2.1), r.2.2)
  reset := fun p => (p.1, C.reset p.2)
  halt := fun p => (p.1, C.halt p.2)

/-- Tick count of the child stored at index `j` (0 when out of range). -/
def countAt {σ : Type} (cs : List (Nat × σ)) (j : Nat) : Nat :=
  ((cs[j]?).map Prod.fst).getD 0

/-- A child that returns a fixed status and leaves the blackboard unchanged. -/
def constChild (st : Status) : ChildI Unit where
  tick := fun _ _ bb => (st, (), bb)
  reset := id
  halt := id

/-- A child whose returned status is its own state (a fixed per-child
status), leaving the blackboard unchanged. -/
def statusChild : ChildI Status where
  tick := fun st _ bb => (st, st, bb)
  reset := id
  halt := id

/-- State of a `Sequence` node (`sequence.hpp`): ordered child list, the
resumption cursor `currentIndex_` and the `halted_` flag. -/
structure Sequence (σ : Type) where
  children : List σ
  currentIndex : Nat
  halted : Bool

/-- The body of `Sequence::tick`'s while-loop, run over the children from the
cursor onward: Running and Failure stop the loop, anything else advances.
Returns the status, the updated suffix of children, the offset of the child
where the loop stopped (= list length when it ran off the end), and the
blackboard. -/
def seqGo {σ : Type} (C : ChildI σ) :
    List σ → Time → Blackboard → Status × List σ × Nat × Blackboard
  | [], _, bb => (.success, [], 0, bb)
  | c :: cs, now, bb =>
    let r := C.tick c now bb
    if r.1 = .running then (.running, r.2.1 :: cs, 0, r.2.2)
    else if r.1 = .failure then (.failure, r.2.1 :: cs, 0, r.2.2)
    else
      let rest := seqGo C cs now r.2.2
      (rest.1, r.2.1 :: rest.2.1, rest.2.2.1 + 1, rest.2.2.2)

/-- `Sequence::reset`: cursor to 0, clear `halted_`, propagate to children. -/
def Sequence.reset {σ : Type} (C : ChildI σ) (s : Sequence σ) : Sequence σ :=
  ⟨s.children.map C.reset, 0, false⟩

/-- `Sequence::halt`: set `halted_`, propagate halt to children. -/
def Sequence.halt {σ : Type} (C : ChildI σ) (s : Sequence σ) : Sequence σ :=
  ⟨s.children.map C.halt, s.currentIndex, true⟩

/-- `Sequence::tick`: short-circuit to Failure while halted; otherwise run the
loop from the cursor.  On Running, return with the cursor parked on the
running child; on Failure or on running off the end, `reset()` (cursor to 0,
`halted_` cleared, reset propagated to every child) and return the status. -/
def Sequence.tick {σ : Type} (C : ChildI σ) (s : Sequence σ) (now : Time)
    (bb : Blackboard) : Status × Sequence σ × Blackboard :=
  if s.halted then (.failure, s, bb)
  else
    let r := seqGo C (s.children.drop s.currentIndex) now bb
    let cs := s.children.take s.currentIndex ++ r.2.1
    if r.1 = .running then
      (.running, ⟨cs, s.currentIndex + r.2.2.1, s.halted⟩, r.2.2.2)
    else (r.1, ⟨cs.map C.reset, 0, false⟩, r.2.2.2)

/-- State of a `Selector` node (`selector.hpp` variant in the repository's
design document, which the current header set builds on): child list and
resumption cursor. -/
structure Selector (σ : Type) where
  children : List σ
  currentIndex : Nat

/-- Body of `Selector::tick`'s loop: Running and Success stop the loop,
anything else (Failure, Idle) advances the cursor. -/
def selGo {σ : Type} (C : ChildI σ) :
    List σ → Time → Blackboard → Status × List σ × Nat × Blackboard
  | [], _, bb => (.failure, [], 0, bb)
  | c :: cs, now, bb =>
    let r := C.tick c now bb
    if r.1 = .running then (.running, r.2.1 :: cs, 0, r.2.2)
    else if r.1 = .success then (.success, r.2.1 :: cs, 0, r.2.2)
    else
      let rest := selGo C cs now r.2.2
      (rest.1, r.2.1 :: rest.2.1, rest.2.2.1 + 1, rest.2.2.2)

/-- `Selector::reset`: cursor to 0, propagate reset to children. -/
def Selector.reset {σ : Type} (C : ChildI σ) (s : Selector σ) : Selector σ :=
  ⟨s.children.map C.reset, 0⟩

/-- `Selector::tick`: run the loop from the cursor; on Running the cursor
parks on the running child, on Success or exhaustion reset and return. -/
def Selector.tick {σ : Type} (C : ChildI σ) (s : Selector σ) (now : Time)
    (bb : Blackboard) : Status × Selector σ × Blackboard :=
  let r := selGo C (s.children.drop s.currentIndex) now bb
  let cs := s.children.take s.currentIndex ++ r.2.1
  if r.1 = .running then
    (.running, ⟨cs, s.currentIndex + r.2.2.1⟩, r.2.2.2)
  else (r.1, ⟨cs.map C.reset, 0⟩, r.2.2.2)

/-- Parallel policies (`parallel.hpp`). -/
inductive Policy where
  | requireAll
  | requireOne
deriving DecidableEq, Repr

/-- Body of `Parallel::tick`'s loop: tick every child unconditionally,
tallying Success and Failure counts (Running and Idle count toward neither).
Returns updated children, success tally, failure tally, blackboard. -/
def parGo {σ : Type} (C : ChildI σ) :
    List σ → Time → Blackboard → List σ × Nat × Nat × Blackboard
  | [], _, bb => ([], 0, 0, bb)
  | c :: cs, now, bb =>
    let r := C.tick c now bb
    let rest := parGo C cs now r.2.2
    (r.2.1 :: rest.1,
     (if r.1 = .success then 1 else 0) + rest.2.1,
     (if r.1 = .failure then 1 else 0) + rest.2.2.1,
     rest.2.2.2)

/-- `Parallel::tick`: tick all children, then evaluate the success policy
first and the failure policy second against the tallies; Running if neither
policy is met. -/
def Parallel.tick {σ : Type} (C : ChildI σ) (sp fp : Policy) (cs : List σ)
    (now : Time) (bb : Blackboard) : Status × List σ × Blackboard :=
  let r := parGo C cs now bb
  let st :=
    if (sp = Policy.requireAll ∧ r.2.1 = cs.length) ∨
       (sp = Policy.requireOne ∧ 0 < r.2.1) then Status.success
    else if (fp = Policy.requireAll ∧ r.2.2.1 = cs.length) ∨
       (fp = Policy.requireOne ∧ 0 < r.2.2.1) then Status.failure
    else Status.running
  (st, r.1, r.2.2.2)

/-- Specification-side policy evaluation on given tallies, used to relate the
loop-computed tallies to the statuses the children returned: success policy
checked first, then failure policy, else Running. -/
def policyStatus (sp fp : Policy) (nSucc nFail total : Nat) : Status :=
  if (sp = Policy.requireAll ∧ nSucc = total) ∨
     (sp = Policy.requireOne ∧ 0 < nSucc) then Status.success
  else if (fp = Policy.requireAll ∧ nFail = total) ∨
     (fp = Policy.requireOne ∧ 0 < nFail) then Status.failure
  else Status.running

/-- Number of occurrences of a status in a list of statuses. -/
def countStatus (x : Status) : List Status → Nat
  | [] => 0
  | s :: ss => (if s = x then 1 else 0) + countStatus x ss

/-- State of a `Decorator` node (`decorator.hpp`): the transform's closure
state, the single child, and the `halted_` flag. -/
structure Decorator (σ φ : Type) where
  fstate : φ
  child : σ
  halted : Bool

/-- `Decorator::tick`: short-circuit to Failure while halted; otherwise tick
the child and apply the transform function to the status the child returned.
The transform may be stateful (a closure over mutable state) and may read the
ambient clock, hence the `Time → φ → Status → Status × φ` shape. -/
def Decorator.tick {σ φ : Type} (C : ChildI σ) (f : Time → φ → Status → Status × φ)
    (d : Decorator σ φ) (now : Time) (bb : Blackboard) :
    Status × Decorator σ φ × Blackboard :=
  if d.halted then (.failure, d, bb)
  else
    let r := C.tick d.child now bb
    let a := f now d.fstate r.1
    (a.1, ⟨a.2, r.2.1, d.halted⟩, r.2.2)

/-- `Decorator::reset`: clear `halted_`, propagate to the child.  The
transform's closure state is untouched (it lives inside the function object). -/
def Decorator.reset {σ φ : Type} (C : ChildI σ) (d : Decorator σ φ) :
    Decorator σ φ :=
  ⟨d.fstate, C.reset d.child, false⟩

/-- `decorators::Repeat(maxTimes)` transform: pass Running through; on
Success reset the attempt counter and return Success; on Failure increment
the counter and give up with Failure once `maxTimes > 0` and the counter
reaches `maxTimes`, else return Running to retry; Idle passes through. -/
def repeatF (maxTimes : Int) (attempts : Int) (status : Status) : Status × Int :=
  match status with
  | .running => (.running, attempts)
  | .success => (.success, 0)
  | .failure =>
    if maxTimes > 0 ∧ attempts + 1 ≥ maxTimes then (.failure, 0)
    else (.running, attempts + 1)
  | .idle => (.idle, attempts)

/-- `decorators::Cooldown(seconds)` transform: on child Success record the
success timestamp and return Success; otherwise, if a success is recorded
(timestamp differs from the sentinel 0) and less than `seconds` has elapsed,
return Failure; otherwise pass the child's status through.  Elapsed time is
the millisecond difference divided by 1000, compared against `seconds`. -/
def cooldownF (seconds : ℚ) (now : Time) (lastSuccess : Time) (status : Status) :
    Status × Time :=
  if status = .success then (.success, now)
  else if lastSuccess ≠ 0 ∧ ((now : ℚ) - (lastSuccess : ℚ)) / 1000 < seconds then
    (.failure, lastSuccess)
  else (status, lastSuccess)

/-- Statuses produced by `n` consecutive ticks of a decorator (clock and
blackboard-threading as given; the blackboard is threaded tick to tick). -/
def decRun {σ φ : Type} (C : ChildI σ) (f : Time → φ → Status → Status × φ)
    (now : Time) : Decorator σ φ → Blackboard → Nat → List Status
  | _, _, 0 => []
  | d, bb, n + 1 =>
    let r := Decorator.tick C f d now bb
    r.1 :: decRun C f now r.2.1 r.2.2 n

/-- Statuses produced by `n` consecutive ticks of a sequence node. -/
def seqRun {σ : Type} (C : ChildI σ) (now : Time) :
    Sequence σ → Blackboard → Nat → List Status
  | _, _, 0 => []
  | s, bb, n + 1 =>
    let r := Sequence.tick C s now bb
    r.1 :: seqRun C now r.2.1 r.2.2 n

/-- First-failure trace predicate for a child list: child `i` is the first
child of the list to return Failure when the children are ticked in order
from the given blackboard (children before it pass — neither Running nor
Failure — with the blackboard threaded through). -/
def SeqFailsAt {σ : Type} (C : ChildI σ) :
    List σ → Time → Blackboard → Nat → Prop
  | [], _, _, _ => False
  | c :: _, now, bb, 0 => (C.tick c now bb).1 = .failure
  | c :: cs, now, bb, i + 1 =>
    (C.tick c now bb).1 ≠ .running ∧ (C.tick c now bb).1 ≠ .failure ∧
      SeqFailsAt C cs now (C.tick c now bb).2.2 i

/-- Pointwise trace of the statuses a child list returns when ticked in
order with the blackboard threaded through (as `Parallel::tick` does). -/
def RunsTrace {σ : Type} (C : ChildI σ) :
    List σ → List Status → Time → Blackboard → Prop
  | [], [], _, _ => True
  | c :: cs, s :: ss, now, bb =>
    (C.tick c now bb).1 = s ∧ RunsTrace C cs ss now (C.tick c now bb).2.2
  | _, _, _, _ => False

/-- Modelled from the spec: the fluent `Builder`'s construction-error surface.
`builder.hpp` is not under `src/` (the umbrella header includes it and the
test file exercises it; only an earlier design-document variant survives), so
the error taxonomy is taken from the spec: finalizing a tree with no root,
and attaching a child to a node kind that does not accept children, must each
fail fast with a distinguishable construction error — and the repository's
own test asserts that `build()` on an empty `Builder` throws
`std::runtime_error`.  Distinguishable errors are modelled as distinct
constructors. -/
inductive BuildError where
  | noRoot
  | childNotAccepted
deriving DecidableEq, Repr

/-- Modelled from the spec: the node kinds the builder can have as an
attachment target. -/
inductive NodeKind where
  | action
  | sequenceNode
  | selectorNode
  | parallelNode
  | decoratorNode
deriving DecidableEq, Repr

/-- Modelled from the spec: only composites own an ordered child list fed by
`addChild`; an action is a leaf and a decorator receives its single child at
construction time, so neither accepts an attached child. -/
def acceptsChildren : NodeKind → Bool
  | .sequenceNode => true
  | .selectorNode => true
  | .parallelNode => true
  | .action => false
  | .decoratorNode => false

/-- Modelled from the spec: finalizing the builder — with no root this fails
fast with the no-root construction error rather than producing a tree. -/
def buildRoot (root : Option NodeKind) : Except BuildError NodeKind :=
  match root with
  | none => .error .noRoot
  | some r => .ok r

/-- Modelled from the spec: attaching a child to an open parent node — a
parent kind that does not accept children fails fast with a distinguishable
construction error rather than silently dropping the child. -/
def attachChild (parent child : NodeKind) : Except BuildError NodeKind :=
  if acceptsChildren parent then .ok child else .error .childNotAccepted

lemma seqGo_len {σ : Type} (C : ChildI σ) (cs : List σ) (now : Time) (bb : Blackboard) :
    (seqGo C cs now bb).2.1.length = cs.length := by
  induction cs generalizing bb with
  | nil => simp [seqGo]
  | cons c cs ih =>
    simp only [seqGo]
    split
    · simp
    · split
      · simp
      · simp [ih]

lemma seqGo_stop_le {σ : Type} (C : ChildI σ) (cs : List σ) (now : Time) (bb : Blackboard) :
    (seqGo C cs now bb).2.2.1 ≤ cs.length := by
  induction cs generalizing bb with
  | nil => simp [seqGo]
  | cons c cs ih =>
    simp only [seqGo]
    split
    · simp
    · split
      · simp
      · simpa using ih _

lemma seqGo_counts {σ : Type} (C : ChildI σ) (cs : List (Nat × σ)) (now : Time)
    (bb : Blackboard) (j : Nat) (hj : j < cs.length) :
    countAt (seqGo (counted C) cs now bb).2.1 j
      = countAt cs j + (if j ≤ (seqGo (counted C) cs now bb).2.2.1 then 1 else 0) := by
  induction cs generalizing bb j with
  | nil => simp at hj
  | cons c cs ih =>
    simp only [seqGo]
    split
    · cases j with
      | zero => simp [countAt, counted]
      | succ j => simp [countAt]
    · split
      · cases j with
        | zero => simp [countAt, counted]
        | succ j => simp [countAt]
      · cases j with
        | zero => simp [countAt, counted]
        | succ j =>
          have hj2 : j < cs.length := by simpa using hj
          have := ih ((counted C).tick c now bb).2.2 j hj2
          simp only [countAt, List.getElem?_cons_succ] at this ⊢
          simpa [Nat.succ_le_succ_iff] using this

lemma seqGo_after {σ : Type} (C : ChildI σ) (cs : List σ) (now : Time)
    (bb : Blackboard) (j : Nat) (hj : (seqGo C cs now bb).2.2.1 < j) :
    (seqGo C cs now bb).2.1[j]? = cs[j]? := by
  induction cs generalizing bb j with
  | nil => simp [seqGo]
  | cons c cs ih =>
    by_cases h1 : (C.tick c now bb).1 = .running
    · cases j with
      | zero => simp [seqGo, h1] at hj
      | succ j => simp [seqGo, h1]
    · by_cases h2 : (C.tick c now bb).1 = .failure
      · cases j with
        | zero => simp [seqGo, h1, h2] at hj
        | succ j => simp [seqGo, h1, h2]
      · cases j with
        | zero => simp [seqGo, h1, h2] at hj
        | succ j =>
          simp only [seqGo, h1, h2, if_false, List.getElem?_cons_succ]
          have hj2 : (seqGo C cs now (C.tick c now bb).2.2).2.2.1 < j := by
            simp [seqGo, h1, h2] at hj; omega
          exact ih _ j hj2

lemma countAt_map_reset {σ : Type} (C : ChildI σ) (cs : List (Nat × σ)) (j : Nat) :
    countAt (cs.map (counted C).reset) j = countAt cs j := by
  simp only [countAt, List.getElem?_map, counted]
  cases cs[j]? <;> simp

lemma countAt_append_left {σ : Type} (l1 l2 : List (Nat × σ)) (j : Nat)
    (h : j < l1.length) : countAt (l1 ++ l2) j = countAt l1 j := by
  simp only [countAt, List.getElem?_append, if_pos h]

lemma countAt_append_right {σ : Type} (l1 l2 : List (Nat × σ)) (j : Nat)
    (h : l1.length ≤ j) : countAt (l1 ++ l2) j = countAt l2 (j - l1.length) := by
  simp only [countAt, List.getElem?_append, if_neg (by omega : ¬ j < l1.length)]

lemma seqTick_countAt {σ : Type} (C : ChildI σ) (s : Sequence (Nat × σ)) (now : Time)
    (bb : Blackboard) (hhalt : s.halted = false) (j : Nat) (hj : j < s.children.length) :
    countAt (Sequence.tick (counted C) s now bb).2.1.children j
      = countAt s.children j +
        (if s.currentIndex ≤ j ∧
            j ≤ s.currentIndex +
              (seqGo (counted C) (s.children.drop s.currentIndex) now bb).2.2.1
         then 1 else 0) := by
  by_cases hci : s.currentIndex ≤ j
  · have hcil : s.currentIndex < s.children.length := lt_of_le_of_lt hci hj
    have hlen : (s.children.take s.currentIndex).length = s.currentIndex := by
      simp [List.length_take]; omega
    have hge : (s.children.take s.currentIndex).length ≤ j := by rw [hlen]; exact hci
    have hdj : j - s.currentIndex < (s.children.drop s.currentIndex).length := by
      simp [List.length_drop]; omega
    have hcnt := seqGo_counts C (s.children.drop s.currentIndex) now bb
        (j - s.currentIndex) hdj
    have hadd : s.currentIndex + (j - s.currentIndex) = j := by omega
    have hdrop : countAt (s.children.drop s.currentIndex) (j - s.currentIndex)
        = countAt s.children j := by
      simp only [countAt, List.getElem?_drop, hadd]
    have hif : (if j - s.currentIndex ≤
          (seqGo (counted C) (s.children.drop s.currentIndex) now bb).2.2.1 then 1 else 0)
        = (if s.currentIndex ≤ j ∧ j ≤ s.currentIndex +
          (seqGo (counted C) (s.children.drop s.currentIndex) now bb).2.2.1 then (1 : Nat) else 0) := by
      by_cases hk : j - s.currentIndex ≤
          (seqGo (counted C) (s.children.drop s.currentIndex) now bb).2.2.1
      · rw [if_pos hk, if_pos ⟨hci, by omega⟩]
      · rw [if_neg hk, if_neg (fun hcon => hk (by omega))]
    simp only [Sequence.tick, hhalt, Bool.false_eq_true, if_false]
    split
    · rw [countAt_append_right _ _ j hge, hlen, hcnt, hdrop, hif]
    · rw [countAt_map_reset, countAt_append_right _ _ j hge, hlen, hcnt, hdrop, hif]
  · have h1 : j < (s.children.take s.currentIndex).length := by
      simp [List.length_take]; omega
    have htake : countAt (s.children.take s.currentIndex) j = countAt s.children j := by
      simp only [countAt, List.getElem?_take]
      rw [if_pos (by omega)]
    have hneg : ¬ (s.currentIndex ≤ j ∧
        j ≤ s.currentIndex + (seqGo (counted C) (s.children.drop s.currentIndex) now bb).2.2.1) := by
      push_neg
      intro hz
      omega
    simp only [Sequence.tick, hhalt, Bool.false_eq_true, if_false]
    split
    · rw [countAt_append_left _ _ j h1, htake]
      simp [hneg]
    · rw [countAt_map_reset, countAt_append_left _ _ j h1, htake]
      simp [hneg]

lemma getElem?_lt {σ : Type} (l : List σ) (n : Nat) (c : σ) (hc : l[n]? = some c) :
    n < l.length := by
  by_contra hcon
  push_neg at hcon
  rw [List.getElem?_len_le hcon] at hc
  cases hc

lemma getElem?_getElem {σ : Type} (l : List σ) (n : Nat) (c : σ) (hc : l[n]? = some c)
    (h : n < l.length) : l[n] = c := by
  rw [List.getElem?_eq_getElem h] at hc
  exact Option.some_injective _ hc

lemma seqTick_running {σ : Type} (C : ChildI σ) (s : Sequence σ) (now : Time)
    (bb : Blackboard) (c : σ) (hhalt : s.halted = false)
    (hc : s.children[s.currentIndex]? = some c)
    (hrun : (C.tick c now bb).1 = .running) :
    (Sequence.tick C s now bb).1 = .running
    ∧ (Sequence.tick C s now bb).2.1.currentIndex = s.currentIndex
    ∧ (Sequence.tick C s now bb).2.1.halted = false
    ∧ (seqGo C (s.children.drop s.currentIndex) now bb).2.2.1 = 0 := by
  have hci : s.currentIndex < s.children.length := getElem?_lt _ _ _ hc
  have hdrop : s.children.drop s.currentIndex
      = c :: s.children.drop (s.currentIndex + 1) := by
    rw [List.drop_eq_getElem_cons hci, getElem?_getElem _ _ _ hc hci]
  rw [hdrop]
  simp [Sequence.tick, seqGo, hrun, hhalt, hdrop]

lemma seqTick_halted {σ : Type} (C : ChildI σ) (s : Sequence σ) (now : Time)
    (bb : Blackboard) (h : s.halted = true) :
    Sequence.tick C s now bb = (.failure, s, bb) := by
  simp [Sequence.tick, h]

lemma seqGo_failsAt {σ : Type} (C : ChildI σ) (cs : List σ) (now : Time)
    (bb : Blackboard) (i : Nat) (h : SeqFailsAt C cs now bb i) :
    i < cs.length ∧ (seqGo C cs now bb).1 = .failure
      ∧ (seqGo C cs now bb).2.2.1 = i := by
  induction cs generalizing bb i with
  | nil => cases h
  | cons c cs ih =>
    cases i with
    | zero =>
      simp only [SeqFailsAt] at h
      have hnr : (C.tick c now bb).1 ≠ .running := by rw [h]; intro hcon; cases hcon
      simp [seqGo, h, hnr]
    | succ i =>
      obtain ⟨h1, h2, h3⟩ := h
      have hrec := ih _ i h3
      simp only [seqGo, h1, h2, if_false, if_neg h1, if_neg h2]
      refine ⟨by simpa using Nat.succ_lt_succ hrec.1, hrec.2.1, by simp [hrec.2.2]⟩

lemma selGo_counts {σ : Type} (C : ChildI σ) (cs : List (Nat × σ)) (now : Time)
    (bb : Blackboard) (j : Nat) (hj : j < cs.length) :
    countAt (selGo (counted C) cs now bb).2.1 j
      = countAt cs j + (if j ≤ (selGo (counted C) cs now bb).2.2.1 then 1 else 0) := by
  induction cs generalizing bb j with
  | nil => simp at hj
  | cons c cs ih =>
    simp only [selGo]
    split
    · cases j with
      | zero => simp [countAt, counted]
      | succ j => simp [countAt]
    · split
      · cases j with
        | zero => simp [countAt, counted]
        | succ j => simp [countAt]
      · cases j with
        | zero => simp [countAt, counted]
        | succ j =>
          have hj2 : j < cs.length := by simpa using hj
          have := ih ((counted C).tick c now bb).2.2 j hj2
          simp only [countAt, List.getElem?_cons_succ] at this ⊢
          simpa [Nat.succ_le_succ_iff] using this

lemma selTick_countAt {σ : Type} (C : ChildI σ) (s : Selector (Nat × σ)) (now : Time)
    (bb : Blackboard) (j : Nat) (hj : j < s.children.length) :
    countAt (Selector.tick (counted C) s now bb).2.1.children j
      = countAt s.children j +
        (if s.currentIndex ≤ j ∧
            j ≤ s.currentIndex +
              (selGo (counted C) (s.children.drop s.currentIndex) now bb).2.2.1
         then 1 else 0) := by
  by_cases hci : s.currentIndex ≤ j
  · have hcil : s.currentIndex < s.children.length := lt_of_le_of_lt hci hj
    have hlen : (s.children.take s.currentIndex).length = s.currentIndex := by
      simp [List.length_take]; omega
    have hge : (s.children.take s.currentIndex).length ≤ j := by rw [hlen]; exact hci
    have hdj : j - s.currentIndex < (s.children.drop s.currentIndex).length := by
      simp [List.length_drop]; omega
    have hcnt := selGo_counts C (s.children.drop s.currentIndex) now bb
        (j - s.currentIndex) hdj
    have hadd : s.currentIndex + (j - s.currentIndex) = j := by omega
    have hdrop : countAt (s.children.drop s.currentIndex) (j - s.currentIndex)
        = countAt s.children j := by
      simp only [countAt, List.getElem?_drop, hadd]
    have hif : (if j - s.currentIndex ≤
          (selGo (counted C) (s.children.drop s.currentIndex) now bb).2.2.1 then 1 else 0)
        = (if s.currentIndex ≤ j ∧ j ≤ s.currentIndex +
          (selGo (counted C) (s.children.drop s.currentIndex) now bb).2.2.1 then (1 : Nat) else 0) := by
      by_cases hk : j - s.currentIndex ≤
          (selGo (counted C) (s.children.drop s.currentIndex) now bb).2.2.1
      · rw [if_pos hk, if_pos ⟨hci, by omega⟩]
      · rw [if_neg hk, if_neg (fun hcon => hk (by omega))]
    simp only [Selector.tick]
    split
    · rw [countAt_append_right _ _ j hge, hlen, hcnt, hdrop, hif]
    · rw [countAt_map_reset, countAt_append_right _ _ j hge, hlen, hcnt, hdrop, hif]
  · have h1 : j < (s.children.take s.currentIndex).length := by
      simp [List.length_take]; omega
    have htake : countAt (s.children.take s.currentIndex) j = countAt s.children j := by
      simp only [countAt, List.getElem?_take]
      rw [if_pos (by omega)]
    have hneg : ¬ (s.currentIndex ≤ j ∧
        j ≤ s.currentIndex + (selGo (counted C) (s.children.drop s.currentIndex) now bb).2.2.1) := by
      push_neg
      intro hz
      omega
    simp only [Selector.tick]
    split
    · rw [countAt_append_left _ _ j h1, htake]
      simp [hneg]
    · rw [countAt_map_reset, countAt_append_left _ _ j h1, htake]
      simp [hneg]

lemma selTick_running {σ : Type} (C : ChildI σ) (s : Selector σ) (now : Time)
    (bb : Blackboard) (c : σ)
    (hc : s.children[s.currentIndex]? = some c)
    (hrun : (C.tick c now bb).1 = .running) :
    (Selector.tick C s now bb).1 = .running
    ∧ (Selector.tick C s now bb).2.1.currentIndex = s.currentIndex
    ∧ (selGo C (s.children.drop s.currentIndex) now bb).2.2.1 = 0 := by
  have hci : s.currentIndex < s.children.length := getElem?_lt _ _ _ hc
  have hdrop : s.children.drop s.currentIndex
      = c :: s.children.drop (s.currentIndex + 1) := by
    rw [List.drop_eq_getElem_cons hci, getElem?_getElem _ _ _ hc hci]
  rw [hdrop]
  simp [Selector.tick, selGo, hrun, hdrop]

lemma parGo_counts {σ : Type} (C : ChildI σ) (cs : List (Nat × σ)) (now : Time)
    (bb : Blackboard) (j : Nat) (hj : j < cs.length) :
    countAt (parGo (counted C) cs now bb).1 j = countAt cs j + 1 := by
  induction cs generalizing bb j with
  | nil => simp at hj
  | cons c cs ih =>
    cases j with
    | zero => simp [parGo, countAt, counted]
    | succ j =>
      have hj2 : j < cs.length := by simpa using hj
      have := ih ((counted C).tick c now bb).2.2 j hj2
      simp only [parGo, countAt, List.getElem?_cons_succ] at this ⊢
      exact this

lemma parGo_tallies {σ : Type} (C : ChildI σ) (cs : List σ) (ss : List Status)
    (now : Time) (bb : Blackboard) (h : RunsTrace C cs ss now bb) :
    (parGo C cs now bb).2.1 = countStatus .success ss
      ∧ (parGo C cs now bb).2.2.1 = countStatus .failure ss := by
  induction cs generalizing bb ss with
  | nil =>
    cases ss with
    | nil => simp [parGo, countStatus]
    | cons a ss => cases h
  | cons c cs ih =>
    cases ss with
    | nil => cases h
    | cons a ss =>
      obtain ⟨h1, h2⟩ := h
      have hrec := ih ss _ h2
      simp only [parGo, countStatus, hrec.1, hrec.2, h1]
      constructor
      · rcases a <;> simp
      · rcases a <;> simp

lemma parTick_eq {σ : Type} (C : ChildI σ) (sp fp : Policy) (cs : List σ)
    (ss : List Status) (now : Time) (bb : Blackboard)
    (h : RunsTrace C cs ss now bb) :
    (Parallel.tick C sp fp cs now bb).1
      = policyStatus sp fp (countStatus .success ss) (countStatus .failure ss) cs.length := by
  have ht := parGo_tallies C cs ss now bb h
  simp only [Parallel.tick, policyStatus, ht.1, ht.2]

lemma countAt_map_halt {σ : Type} (C : ChildI σ) (cs : List (Nat × σ)) (j : Nat) :
    countAt (cs.map (counted C).halt) j = countAt cs j := by
  simp only [countAt, List.getElem?_map, counted]
  cases cs[j]? <;> simp

lemma seqTick_len {σ : Type} (C : ChildI σ) (s : Sequence σ) (now : Time)
    (bb : Blackboard) :
    (Sequence.tick C s now bb).2.1.children.length = s.children.length := by
  simp only [Sequence.tick]
  split
  · rfl
  · split <;>
      simp [seqGo_len, List.length_take, List.length_drop] <;> omega

lemma selGo_len {σ : Type} (C : ChildI σ) (cs : List σ) (now : Time) (bb : Blackboard) :
    (selGo C cs now bb).2.1.length = cs.length := by
  induction cs generalizing bb with
  | nil => simp [selGo]
  | cons c cs ih =>
    simp only [selGo]
    split
    · simp
    · split
      · simp
      · simp [ih]

lemma selTick_len {σ : Type} (C : ChildI σ) (s : Selector σ) (now : Time)
    (bb : Blackboard) :
    (Selector.tick C s now bb).2.1.children.length = s.children.length := by
  simp only [Selector.tick]
  split <;>
    simp [selGo_len, List.length_take, List.length_drop] <;> omega

lemma seqRun_halted {σ : Type} (C : ChildI σ) (s : Sequence σ) (now : Time)
    (bb : Blackboard) (h : s.halted = true) (n : Nat) :
    seqRun C now s bb n = List.replicate n .failure := by
  induction n with
  | zero => rfl
  | succ n ih => simp [seqRun, seqTick_halted C s now bb h, ih, List.replicate_succ]

/-- **C10**: ticking a non-halted `Sequence` whose child list is empty returns
Success — the while-loop body is never entered, so the node resets (a no-op on
no children) and returns Success with no child ever ticked (there is no child
to tick) and the blackboard untouched.  Stated for an arbitrary cursor value;
a fresh sequence has cursor 0. -/
theorem seq_empty_children_success {σ : Type} (C : ChildI σ) (ci : Nat)
    (now : Time) (bb : Blackboard) :
    Sequence.tick C ⟨[], ci, false⟩ now bb
      = (.success, (⟨[], 0, false⟩ : Sequence σ), bb) := by
  simp [Sequence.tick, seqGo]

/-- **C5**: after `halt()` on a Sequence (the `halted_` flag is set and halt is
propagated to the children), every subsequent tick returns Failure with the
state and blackboard untouched — in particular no child tick is invoked (every
child keeps its instrumented tick count) — and this repeats for any number of
ticks until `reset()` is called; `reset()` clears the halted flag, sets the
cursor to 0, and restores normal traversal from the first child (the next
tick ticks child 0). -/
theorem halt_shortcircuits_until_reset {σ : Type} (C : ChildI σ)
    (s : Sequence (Nat × σ)) (now now2 : Time) (bb : Blackboard) (n : Nat)
    (hne : s.children ≠ []) :
    Sequence.tick (counted C) (Sequence.halt (counted C) s) now bb
        = (.failure, Sequence.halt (counted C) s, bb)
    ∧ seqRun (counted C) now (Sequence.halt (counted C) s) bb n
        = List.replicate n .failure
    ∧ (∀ j, countAt (Sequence.halt (counted C) s).children j = countAt s.children j)
    ∧ (Sequence.reset (counted C) (Sequence.halt (counted C) s)).halted = false
    ∧ (Sequence.reset (counted C) (Sequence.halt (counted C) s)).currentIndex = 0
    ∧ countAt (Sequence.tick (counted C)
          (Sequence.reset (counted C) (Sequence.halt (counted C) s)) now2 bb).2.1.children 0
        = countAt s.children 0 + 1 := by
  have hh : (Sequence.halt (counted C) s).halted = true := rfl
  refine ⟨seqTick_halted _ _ _ _ hh, seqRun_halted _ _ _ _ hh n, ?_, rfl, rfl, ?_⟩
  · intro j
    exact countAt_map_halt C s.children j
  · have hlen : (Sequence.reset (counted C) (Sequence.halt (counted C) s)).children.length
        = s.children.length := by
      simp [Sequence.reset, Sequence.halt]
    have hpos : 0 < s.children.length := List.length_pos.mpr hne
    have hcnt := seqTick_countAt C (Sequence.reset (counted C) (Sequence.halt (counted C) s))
        now2 bb rfl 0 (by rw [hlen]; exact hpos)
    rw [hcnt]
    have h0 : countAt (Sequence.reset (counted C) (Sequence.halt (counted C) s)).children 0
        = countAt s.children 0 := by
      simp only [Sequence.reset, Sequence.halt]
      rw [countAt_map_reset, countAt_map_halt]
    rw [h0, if_pos ⟨Nat.zero_le _, Nat.zero_le _⟩]

/-- **C1**: for a Sequence or a Selector whose current child (the child at the
cursor) returns Running on a tick, the composite returns Running with its
cursor unchanged; on the next tick the children before the cursor are not
re-ticked (their tick counts are unchanged) while the cursor child is ticked
(exactly once) again — resumption, not a restart from index 0. -/
theorem running_resumption {σ τ : Type} (C : ChildI σ) (D : ChildI τ)
    (s : Sequence (Nat × σ)) (t : Selector (Nat × τ))
    (now now2 mow mow2 : Time) (bb cc : Blackboard)
    (c : Nat × σ) (d : Nat × τ)
    (st1 st2 u1 u2 : Status) (s1 s2 : Sequence (Nat × σ)) (t1 t2 : Selector (Nat × τ))
    (bb1 bb2 cc1 cc2 : Blackboard)
    (hhalt : s.halted = false)
    (hc : s.children[s.currentIndex]? = some c)
    (hrun : ((counted C).tick c now bb).1 = .running)
    (hd : t.children[t.currentIndex]? = some d)
    (hdrun : ((counted D).tick d mow cc).1 = .running)
    (hs1 : Sequence.tick (counted C) s now bb = (st1, s1, bb1))
    (hs2 : Sequence.tick (counted C) s1 now2 bb1 = (st2, s2, bb2))
    (ht1 : Selector.tick (counted D) t mow cc = (u1, t1, cc1))
    (ht2 : Selector.tick (counted D) t1 mow2 cc1 = (u2, t2, cc2)) :
    st1 = .running ∧ s1.currentIndex = s.currentIndex
    ∧ countAt s1.children s.currentIndex = countAt s.children s.currentIndex + 1
    ∧ (∀ j, j < s.children.length → j ≠ s.currentIndex →
        countAt s1.children j = countAt s.children j)
    ∧ (∀ j, j < s.currentIndex → countAt s2.children j = countAt s1.children j)
    ∧ countAt s2.children s.currentIndex = countAt s1.children s.currentIndex + 1
    ∧ u1 = .running ∧ t1.currentIndex = t.currentIndex
    ∧ countAt t1.children t.currentIndex = countAt t.children t.currentIndex + 1
    ∧ (∀ j, j < t.children.length → j ≠ t.currentIndex →
        countAt t1.children j = countAt t.children j)
    ∧ (∀ j, j < t.currentIndex → countAt t2.children j = countAt t1.children j)
    ∧ countAt t2.children t.currentIndex = countAt t1.children t.currentIndex + 1 := by
  have hci : s.currentIndex < s.children.length := getElem?_lt _ _ _ hc
  have hdi : t.currentIndex < t.children.length := getElem?_lt _ _ _ hd
  obtain ⟨hr1, hr2, hr3, hr4⟩ := seqTick_running (counted C) s now bb c hhalt hc hrun
  rw [hs1] at hr1 hr2 hr3
  obtain ⟨hq1, hq2, hq3⟩ := selTick_running (counted D) t mow cc d hd hdrun
  rw [ht1] at hq1 hq2
  have hslen : s1.children.length = s.children.length := by
    have := seqTick_len (counted C) s now bb
    rw [hs1] at this
    exact this
  have htlen : t1.children.length = t.children.length := by
    have := selTick_len (counted D) t mow cc
    rw [ht1] at this
    exact this
  refine ⟨hr1, hr2, ?_, ?_, ?_, ?_, hq1, hq2, ?_, ?_, ?_, ?_⟩
  · -- tick 1 of the sequence ticks the cursor child once
    have := seqTick_countAt C s now bb hhalt s.currentIndex hci
    rw [hs1, hr4, if_pos ⟨le_refl _, by omega⟩] at this
    exact this
  · -- and no other child
    intro j hj hne
    have := seqTick_countAt C s now bb hhalt j hj
    rw [hs1, hr4] at this
    rw [this, if_neg (by omega)]
    omega
  · -- tick 2 of the sequence: children before the cursor not re-ticked
    intro j hj
    have hb : j < s1.children.length := by omega
    have := seqTick_countAt C s1 now2 bb1 hr3 j hb
    rw [hs2, hr2] at this
    rw [this, if_neg (by omega)]
    omega
  · -- tick 2 of the sequence ticks the cursor child again
    have hb : s.currentIndex < s1.children.length := by omega
    have := seqTick_countAt C s1 now2 bb1 hr3 s.currentIndex hb
    rw [hs2, hr2] at this
    rw [this, if_pos ⟨le_refl _, by omega⟩]
  · -- tick 1 of the selector ticks the cursor child once
    have := selTick_countAt D t mow cc t.currentIndex hdi
    rw [ht1, hq3, if_pos ⟨le_refl _, by omega⟩] at this
    exact this
  · -- and no other child
    intro j hj hne
    have := selTick_countAt D t mow cc j hj
    rw [ht1, hq3] at this
    rw [this, if_neg (by omega)]
    omega
  · -- tick 2 of the selector: children before the cursor not re-ticked
    intro j hj
    have hb : j < t1.children.length := by omega
    have := selTick_countAt D t1 mow2 cc1 j hb
    rw [ht2, hq2] at this
    rw [this, if_neg (by omega)]
    omega
  · -- tick 2 of the selector ticks the cursor child again
    have hb : t.currentIndex < t1.children.length := by omega
    have := selTick_countAt D t1 mow2 cc1 t.currentIndex hb
    rw [ht2, hq2] at this
    rw [this, if_pos ⟨le_refl _, by omega⟩]

/-- Witness for the Running-resumption theorem: a one-child Sequence and a
one-child Selector whose child returns Running; both return Running and on
the next tick the same child is ticked again. -/
theorem running_resumption_witness :
    ((counted (constChild Status.running)).tick (0, ()) 0 Blackboard.empty).1
        = Status.running
    ∧ (Sequence.tick (counted (constChild Status.running))
        (⟨[(0, ())], 0, false⟩ : Sequence (Nat × Unit)) 0 Blackboard.empty).1
        = Status.running
    ∧ (Selector.tick (counted (constChild Status.running))
        (⟨[(0, ())], 0⟩ : Selector (Nat × Unit)) 0 Blackboard.empty).1
        = Status.running := by
  have h := running_resumption (constChild Status.running) (constChild Status.running)
      (⟨[(0, ())], 0, false⟩ : Sequence (Nat × Unit))
      (⟨[(0, ())], 0⟩ : Selector (Nat × Unit)) 0 0 0 0
      Blackboard.empty Blackboard.empty (0, ()) (0, ())
      _ _ _ _ _ _ _ _ _ _ _ _
      rfl rfl rfl rfl rfl rfl rfl rfl rfl
  exact ⟨rfl, h.1, h.2.2.2.2.2.2.1⟩

/-- **C2**: for a non-halted Sequence starting at cursor 0 whose child `i` is
the first child to return Failure (the children before it pass), the tick
returns Failure, children `0..i` are each ticked exactly once (tick counts
increment by one), children after `i` are not ticked (their states change
only by the propagated reset), and afterwards the cursor is back at 0 with
the halted flag clear and the reset propagated to all children (shown
explicitly for the untouched ones, whose final state is exactly the reset of
their original state). -/
theorem seq_first_failure {σ : Type} (C : ChildI σ) (cs : List (Nat × σ))
    (now : Time) (bb : Blackboard) (i : Nat)
    (h : SeqFailsAt (counted C) cs now bb i)
    (st : Status) (s1 : Sequence (Nat × σ)) (bb1 : Blackboard)
    (hs : Sequence.tick (counted C) ⟨cs, 0, false⟩ now bb = (st, s1, bb1)) :
    i < cs.length
    ∧ st = .failure
    ∧ s1.currentIndex = 0
    ∧ s1.halted = false
    ∧ (∀ j, j ≤ i → countAt s1.children j = countAt cs j + 1)
    ∧ (∀ j, i < j → s1.children[j]? = (cs[j]?).map ((counted C).reset)) := by
  obtain ⟨hlen, hst, hk⟩ := seqGo_failsAt (counted C) cs now bb i h
  have hnr : (seqGo (counted C) cs now bb).1 ≠ .running := by
    rw [hst]; intro hcon; cases hcon
  have htick : Sequence.tick (counted C) ⟨cs, 0, false⟩ now bb
      = (.failure, ⟨(seqGo (counted C) cs now bb).2.1.map (counted C).reset, 0, false⟩,
         (seqGo (counted C) cs now bb).2.2.2) := by
    simp [Sequence.tick, hst, hnr]
  have e1 : st = .failure := by
    have := congrArg Prod.fst hs.symm
    rw [htick] at this
    exact this
  have e2 : s1 = ⟨(seqGo (counted C) cs now bb).2.1.map (counted C).reset, 0, false⟩ := by
    have := congrArg (fun p => p.2.1) hs.symm
    rw [htick] at this
    exact this
  refine ⟨hlen, e1, by rw [e2], by rw [e2], ?_, ?_⟩
  · intro j hj
    have hjl : j < cs.length := lt_of_le_of_lt (le_trans hj (le_refl i)) hlen
    have := seqTick_countAt C ⟨cs, 0, false⟩ now bb rfl j (by simpa using hjl)
    rw [hs] at this
    simp only [List.drop_zero] at this
    rw [this, if_pos ⟨Nat.zero_le _, by omega⟩]
  · intro j hj
    rw [e2]
    simp only [List.getElem?_map]
    rw [seqGo_after (counted C) cs now bb j (by rw [hk]; exact hj)]

/-- Witness for the Sequence first-failure theorem: three children returning
Success, Failure, Idle in order; the tick fails, the first two children are
ticked once each, and the third is untouched except for the propagated
reset. -/
theorem seq_first_failure_witness :
    SeqFailsAt (counted statusChild)
        [(0, Status.success), (0, Status.failure), (0, Status.idle)]
        0 Blackboard.empty 1
    ∧ (Sequence.tick (counted statusChild)
        ⟨[(0, Status.success), (0, Status.failure), (0, Status.idle)], 0, false⟩
        0 Blackboard.empty).1 = Status.failure
    ∧ countAt (Sequence.tick (counted statusChild)
        ⟨[(0, Status.success), (0, Status.failure), (0, Status.idle)], 0, false⟩
        0 Blackboard.empty).2.1.children 1 = 1
    ∧ (Sequence.tick (counted statusChild)
        ⟨[(0, Status.success), (0, Status.failure), (0, Status.idle)], 0, false⟩
        0 Blackboard.empty).2.1.children[2]? = some (0, Status.idle) := by
  have hfail : SeqFailsAt (counted statusChild)
      [(0, Status.success), (0, Status.failure), (0, Status.idle)]
      0 Blackboard.empty 1 := ⟨by decide, by decide, rfl⟩
  have h := seq_first_failure statusChild
      [(0, Status.success), (0, Status.failure), (0, Status.idle)]
      0 Blackboard.empty 1 hfail _ _ _ rfl
  exact ⟨hfail, h.2.1, h.2.2.2.2.1 1 (le_refl 1), h.2.2.2.2.2 2 (by omega)⟩

/-- **C4**: every tick of a Parallel node ticks every child exactly once (no
short-circuiting — each tick count rises by one regardless of siblings), the
Success/Failure tallies are exactly the numbers of children that returned
Success resp. Failure (Running and Idle children count toward neither), the
returned status is the policy evaluation with the success policy checked
before the failure policy, and Running is returned when neither policy is
met. -/
theorem parallel_ticks_all_once {σ : Type} (C : ChildI σ) (sp fp : Policy)
    (cs : List (Nat × σ)) (ss : List Status) (now : Time) (bb : Blackboard)
    (h : RunsTrace (counted C) cs ss now bb) :
    (Parallel.tick (counted C) sp fp cs now bb).1
      = policyStatus sp fp (countStatus .success ss) (countStatus .failure ss) cs.length
    ∧ (∀ j, j < cs.length →
        countAt (Parallel.tick (counted C) sp fp cs now bb).2.1 j = countAt cs j + 1)
    ∧ (∀ nS nF total : Nat,
        ((sp = .requireAll ∧ nS = total) ∨ (sp = .requireOne ∧ 0 < nS)) →
        policyStatus sp fp nS nF total = .success)
    ∧ (∀ nS nF total : Nat,
        ¬ ((sp = .requireAll ∧ nS = total) ∨ (sp = .requireOne ∧ 0 < nS)) →
        ¬ ((fp = .requireAll ∧ nF = total) ∨ (fp = .requireOne ∧ 0 < nF)) →
        policyStatus sp fp nS nF total = .running) := by
  refine ⟨parTick_eq (counted C) sp fp cs ss now bb h, ?_, ?_, ?_⟩
  · intro j hj
    exact parGo_counts C cs now bb j hj
  · intro nS nF total hsp
    simp [policyStatus, hsp]
  · intro nS nF total hsp hfp
    simp [policyStatus, hsp, hfp]

/-- Witness for the Parallel theorem: success policy RequireAll, failure
policy RequireOne, three children returning Success, Success, Failure —
the result is Failure (the success policy is not met, the failure policy is),
and every child was ticked exactly once. -/
theorem parallel_ticks_all_once_witness :
    RunsTrace (counted statusChild)
        [(0, Status.success), (0, Status.success), (0, Status.failure)]
        [Status.success, Status.success, Status.failure] 0 Blackboard.empty
    ∧ (Parallel.tick (counted statusChild) .requireAll .requireOne
        [(0, Status.success), (0, Status.success), (0, Status.failure)]
        0 Blackboard.empty).1 = Status.failure
    ∧ countAt (Parallel.tick (counted statusChild) .requireAll .requireOne
        [(0, Status.success), (0, Status.success), (0, Status.failure)]
        0 Blackboard.empty).2.1 0 = 1
    ∧ countAt (Parallel.tick (counted statusChild) .requireAll .requireOne
        [(0, Status.success), (0, Status.success), (0, Status.failure)]
        0 Blackboard.empty).2.1 2 = 1 := by
  have htr : RunsTrace (counted statusChild)
      [(0, Status.success), (0, Status.success), (0, Status.failure)]
      [Status.success, Status.success, Status.failure] 0 Blackboard.empty :=
    ⟨rfl, rfl, rfl, trivial⟩
  have h := parallel_ticks_all_once statusChild .requireAll .requireOne
      [(0, Status.success), (0, Status.success), (0, Status.failure)]
      [Status.success, Status.success, Status.failure] 0 Blackboard.empty htr
  exact ⟨htr, h.1, h.2.1 0 (by decide), h.2.1 2 (by decide)⟩

/-- **C9**: a non-halted Decorator tick ticks its child exactly once (the
instrumented tick count rises by one) and returns the transform applied to
the status the child just returned, for every transform function — stateful
or not, no transform can prevent the child from being ticked, because the
child tick happens before the transform runs. -/
theorem decorator_ticks_child_once {σ φ : Type} (C : ChildI σ)
    (f : Time → φ → Status → Status × φ) (d : Decorator (Nat × σ) φ)
    (now : Time) (bb : Blackboard) (h : d.halted = false) :
    (Decorator.tick (counted C) f d now bb).1
      = (f now d.fstate ((counted C).tick d.child now bb).1).1
    ∧ (Decorator.tick (counted C) f d now bb).2.1.child.1 = d.child.1 + 1
    ∧ (Decorator.tick (counted C) f d now bb).2.1.fstate
      = (f now d.fstate ((counted C).tick d.child now bb).1).2 := by
  simp [Decorator.tick, h, counted]

/-- Witness for the Decorator theorem: a transform that ignores everything
and returns Idle still cannot prevent its child from being ticked. -/
theorem decorator_ticks_child_once_witness :
    (⟨(), (0, ()), false⟩ : Decorator (Nat × Unit) Unit).halted = false
    ∧ (Decorator.tick (counted (constChild Status.success))
        (fun _ _ _ => (Status.idle, ())) ⟨(), (0, ()), false⟩ 0 Blackboard.empty).1
        = Status.idle
    ∧ (Decorator.tick (counted (constChild Status.success))
        (fun _ _ _ => (Status.idle, ())) ⟨(), (0, ()), false⟩ 0 Blackboard.empty).2.1.child.1
        = 1 := by
  have h := decorator_ticks_child_once (constChild Status.success)
      (fun _ _ _ => (Status.idle, ())) ⟨(), (0, ()), false⟩ 0 Blackboard.empty rfl
  exact ⟨rfl, h.1, h.2.1⟩

/-- **C6**: Repeat(3) over an always-failing child returns Running on the
first two ticks and Failure on the third, and the attempt counter is reset
when giving up, so the next three ticks repeat the same pattern (the 6-tick
run shows two full cycles); with `n ≤ 0` the transform returns Running on
every Failure (unbounded retries), also when run through the Decorator over
an always-failing child. -/
theorem repeat_gives_up_and_resets (now : Time) (bb : Blackboard)
    (n a : Int) (d : Decorator Unit Int)
    (hn : n ≤ 0) (hd : d.halted = false) :
    decRun (constChild Status.failure) (fun _ att st => repeatF 3 att st) now
        ⟨0, (), false⟩ bb 6
      = [Status.running, Status.running, Status.failure,
         Status.running, Status.running, Status.failure]
    ∧ (repeatF n a Status.failure).1 = Status.running
    ∧ (Decorator.tick (constChild Status.failure)
        (fun _ att st => repeatF n att st) d now bb).1 = Status.running := by
  have hunb : ∀ b : Int, (repeatF n b Status.failure).1 = Status.running := by
    intro b
    simp only [repeatF]
    rw [if_neg]
    rintro ⟨h1, _⟩
    omega
  refine ⟨rfl, hunb a, ?_⟩
  simp only [Decorator.tick, hd, Bool.false_eq_true, if_false, constChild]
  exact hunb d.fstate

/-- Witness for the Repeat theorem at `n = 0` (unbounded) and a concrete
decorator state. -/
theorem repeat_gives_up_and_resets_witness :
    (0 : Int) ≤ 0
    ∧ decRun (constChild Status.failure) (fun _ att st => repeatF 3 att st) 0
        ⟨0, (), false⟩ Blackboard.empty 6
      = [Status.running, Status.running, Status.failure,
         Status.running, Status.running, Status.failure]
    ∧ (repeatF 0 5 Status.failure).1 = Status.running
    ∧ (Decorator.tick (constChild Status.failure)
        (fun _ att st => repeatF 0 att st) ⟨7, (), false⟩ 0 Blackboard.empty).1
      = Status.running := by
  have h := repeat_gives_up_and_resets 0 Blackboard.empty 0 5 ⟨7, (), false⟩
      (le_refl 0) rfl
  exact ⟨le_refl 0, h.1, h.2.1, h.2.2⟩

/-- **C3** counterexample: Cooldown(0.5s) over a child that always returns
Success, ticked twice at the same instant (an immediately-following second
tick).  The claim predicts the second tick returns Failure without ticking
the child; in fact both ticks return Success (the transform checks the
child's Success before the cooldown gate and re-records the timestamp) and
the child has been ticked twice (the transform runs only after the child's
tick). -/
theorem cooldown_claim_counterexample :
    decRun (counted (constChild Status.success))
        (fun t last st => cooldownF (1 / 2) t last st) 1000
        ⟨0, (0, ()), false⟩ Blackboard.empty 2 = [Status.success, Status.success]
    ∧ (Decorator.tick (counted (constChild Status.success))
        (fun t last st => cooldownF (1 / 2) t last st)
        (Decorator.tick (counted (constChild Status.success))
            (fun t last st => cooldownF (1 / 2) t last st)
            ⟨0, (0, ()), false⟩ 1000 Blackboard.empty).2.1 1000
        (Decorator.tick (counted (constChild Status.success))
            (fun t last st => cooldownF (1 / 2) t last st)
            ⟨0, (0, ()), false⟩ 1000 Blackboard.empty).2.2).2.1.child.1 = 2
    ∧ Status.success ≠ Status.failure :=
  ⟨rfl, rfl, by decide⟩

/-- **C3** as amended: the cooldown gate fires only when the child's status
is not Success — a non-halted tick whose child returns non-Success within
`seconds` of the recorded last success returns Failure, with the child
nevertheless ticked once (the transform runs after the child's tick and
cannot suppress it); a child Success always re-records the timestamp and
passes Success through, so over an always-Success child every tick returns
Success. -/
theorem cooldown_gate_nonsuccess {σ : Type} (C : ChildI σ) (seconds : ℚ)
    (now : Time) (d : Decorator (Nat × σ) Time) (bb : Blackboard)
    (hhalt : d.halted = false)
    (hns : ((counted C).tick d.child now bb).1 ≠ .success)
    (hset : d.fstate ≠ 0)
    (helapsed : ((now : ℚ) - (d.fstate : ℚ)) / 1000 < seconds) :
    (Decorator.tick (counted C) (fun t last st => cooldownF seconds t last st)
        d now bb).1 = Status.failure
    ∧ (Decorator.tick (counted C) (fun t last st => cooldownF seconds t last st)
        d now bb).2.1.child.1 = d.child.1 + 1
    ∧ (∀ t l : Time, cooldownF seconds t l Status.success = (Status.success, t))
    ∧ (∀ (t : Time) (bb2 : Blackboard) (d2 : Decorator (Nat × Unit) Time),
        d2.halted = false →
        (Decorator.tick (counted (constChild Status.success))
            (fun a b c => cooldownF seconds a b c) d2 t bb2).1 = Status.success) := by
  refine ⟨?_, ?_, ?_, ?_⟩
  · simp [Decorator.tick, hhalt, cooldownF, hns, hset, helapsed]
  · simp [Decorator.tick, hhalt, counted]
  · intro t l
    simp [cooldownF]
  · intro t bb2 d2 hd2
    simp [Decorator.tick, hd2, counted, constChild, cooldownF]

/-- Witness for the amended Cooldown theorem: an always-failing child 200 ms
after a recorded success, inside a 0.5 s window — the decorator returns
Failure and the child was still ticked. -/
theorem cooldown_gate_nonsuccess_witness :
    ((counted (constChild Status.failure)).tick ((0 : Nat), ()) 1200 Blackboard.empty).1
        ≠ Status.success
    ∧ ((1200 : ℚ) - (1000 : ℚ)) / 1000 < 1 / 2
    ∧ (Decorator.tick (counted (constChild Status.failure))
        (fun t last st => cooldownF (1 / 2) t last st)
        ⟨1000, (0, ()), false⟩ 1200 Blackboard.empty).1 = Status.failure
    ∧ (Decorator.tick (counted (constChild Status.failure))
        (fun t last st => cooldownF (1 / 2) t last st)
        ⟨1000, (0, ()), false⟩ 1200 Blackboard.empty).2.1.child.1 = 1 := by
  have h := cooldown_gate_nonsuccess (constChild Status.failure) (1 / 2) 1200
      ⟨1000, (0, ()), false⟩ Blackboard.empty rfl (by decide) (by decide) (by norm_num)
  exact ⟨by decide, by norm_num, h.1, h.2.1⟩

/-- **C7**: blackboard round-trip — after storing a value of kind `t` under a
key, reading that key back at kind `t` returns the value; reading it at a
different kind `u`, or reading an unset key, returns the empty optional; all
three operations are total functions (no error can be raised — misses are
represented as `none`). -/
theorem blackboard_roundtrip (bb : Blackboard) (k : String) (t u : BBTy)
    (v : t.interp) (hne : u ≠ t) (hunset : bb k = none) :
    Blackboard.get t (Blackboard.set bb k (BBVal.encode t v)) k = some v
    ∧ Blackboard.get u (Blackboard.set bb k (BBVal.encode t v)) k = none
    ∧ Blackboard.get u bb k = none := by
  have hk : Blackboard.set bb k (BBVal.encode t v) k = some (BBVal.encode t v) := by
    simp [Blackboard.set]
  refine ⟨?_, ?_, ?_⟩
  · rw [Blackboard.get, hk]
    cases t <;> rfl
  · rw [Blackboard.get, hk]
    cases t <;> cases u <;> first
      | exact absurd rfl hne
      | rfl
  · rw [Blackboard.get, hunset]

/-- Witness for the blackboard round-trip: an integer stored under "x" reads
back as an integer, reads as empty at string kind, and a fresh blackboard
reads as empty. -/
theorem blackboard_roundtrip_witness :
    BBTy.tstr ≠ BBTy.tint
    ∧ Blackboard.get .tint
        (Blackboard.set Blackboard.empty "x" (BBVal.encode .tint (42 : Int))) "x" = some (42 : Int)
    ∧ Blackboard.get .tstr
        (Blackboard.set Blackboard.empty "x" (BBVal.encode .tint (42 : Int))) "x" = none
    ∧ Blackboard.get .tstr Blackboard.empty "x" = none := by
  have h := blackboard_roundtrip Blackboard.empty "x" .tint .tstr (42 : Int) (by decide) rfl
  exact ⟨by decide, h.1, h.2.1, h.2.2⟩

/-- **C8**: finalizing a tree with no root yields the no-root construction
error, attaching a child to a node kind that does not accept children yields
the child-not-accepted construction error, the two errors are
distinguishable, and the success path is disjoint from both (fail-fast, not
a silent no-op).  The Builder itself is outside `src/`; this is proved
against the model taken from the spec, whose no-root branch is confirmed by
the repository's own test (`build()` on an empty Builder throws
`std::runtime_error`). -/
theorem builder_construction_errors (p c : NodeKind)
    (hp : acceptsChildren p = false) :
    buildRoot none = Except.error BuildError.noRoot
    ∧ attachChild p c = Except.error BuildError.childNotAccepted
    ∧ BuildError.noRoot ≠ BuildError.childNotAccepted
    ∧ (∀ r : NodeKind, buildRoot (some r) = Except.ok r) := by
  refine ⟨rfl, ?_, by decide, fun r => rfl⟩
  simp [attachChild, hp]

/-- Witness for the builder-errors theorem: an Action node accepts no
children. -/
theorem builder_construction_errors_witness :
    acceptsChildren NodeKind.action = false
    ∧ buildRoot none = Except.error BuildError.noRoot
    ∧ attachChild NodeKind.action NodeKind.sequenceNode
        = Except.error BuildError.childNotAccepted := by
  have h := builder_construction_errors NodeKind.action NodeKind.sequenceNode rfl
  exact ⟨rfl, h.1, h.2.1⟩

/-- Witness for the halt theorem: a one-child halted Sequence short-circuits
to Failure with the state untouched, and after reset the first child is
ticked again. -/
theorem halt_shortcircuits_until_reset_witness :
    ([((0 : Nat), ())] : List (Nat × Unit)) ≠ []
    ∧ Sequence.tick (counted (constChild Status.running))
        (Sequence.halt (counted (constChild Status.running)) ⟨[(0, ())], 0, false⟩)
        0 Blackboard.empty
      = (Status.failure,
         Sequence.halt (counted (constChild Status.running)) ⟨[(0, ())], 0, false⟩,
         Blackboard.empty)
    ∧ countAt (Sequence.tick (counted (constChild Status.running))
          (Sequence.reset (counted (constChild Status.running))
            (Sequence.halt (counted (constChild Status.running)) ⟨[(0, ())], 0, false⟩))
          0 Blackboard.empty).2.1.children 0 = 1 := by
  have h := halt_shortcircuits_until_reset (constChild Status.running)
      ⟨[(0, ())], 0, false⟩ 0 0 Blackboard.empty 2 (by decide)
  exact ⟨by decide, h.1, h.2.2.2.2.2⟩

end Bonsai
